import Mathlib

/-!
# A verification development for the PEPit symbolic PEP engine

This file embeds, in Lean, the parts of the PEPit repository that the claims
below are about: the symbolic Point/Expression algebra, the `SmoothFunction`
class (`src/PEPit/functions/smooth_function.py`), the oracle/interpolation-point
machinery of `Function`, the combination (linear-combination-of-functions)
mechanism, and the performance-metric bookkeeping of the `PEP` problem object.

The repository snapshot contains `smooth_function.py` and two NoLips example
scripts; the core engine (`Point`, `Expression`, `Function`, `Constraint`,
`PEP`) is called by that code but its own source is not part of the snapshot.
Definitions for those parts are therefore modelled from the specification's
words and are marked `Modelled from the spec:` in their doc comments;
everything else is a direct translation of the Python source.

Numeric coefficients are modelled as exact rationals (`ℚ`).  A second, small
model with an explicit IEEE-style `inf` value (`PyFloat`) is used for the one
claim about the degenerate parameter `L == np.inf`.
-/

namespace PEPit

/-- Modelled from the spec: a `Point` is a symbolic vector, "a mapping from
Generator → coefficient (dense conceptually, sparse in representation)".
Vector generators are indexed by naturals (the Basis Registry's counter); the
function representation is canonical, so equal coefficient maps are equal
Points ("collapse duplicate generators by summing coefficients"). -/
abbrev Point : Type := ℕ → ℚ

/-- The Point wrapping a single fresh vector generator `i` (coefficient 1). -/
def Point.gen (i : ℕ) : Point := fun j => if j = i then 1 else 0

/-- The coefficient the inner product of Points `x` and `y` contributes to the
Gram entry of the generator pair `(i, j)`: a diagonal pair `(i, i)` receives
the single product `x i * y i`, an off-diagonal pair receives both cross
products.  This realizes the spec's requirement that "an inner product of a
Point with itself must be recognized as a single diagonal Gram-matrix entry". -/
def gramFun (x y : Point) (i j : ℕ) : ℚ :=
  if i = j then x i * y i else x i * y j + x j * y i

theorem gramFun_symm (x y : Point) : ∀ i j, gramFun x y i j = gramFun x y j i := by
  intro i j
  unfold gramFun
  rcases eq_or_ne i j with h | h
  · subst h; simp
  · simp only [if_neg h, if_neg (Ne.symm h)]
    ring

/-- Modelled from the spec: the quadratic ("bilinear") part produced by an
inner product of two Points, as a map on unordered generator pairs. -/
def Point.inner (x y : Point) : Sym2 ℕ → ℚ :=
  Sym2.lift ⟨gramFun x y, gramFun_symm x y⟩

@[simp]
theorem Point.inner_apply (x y : Point) (i j : ℕ) :
    Point.inner x y (Sym2.mk (i, j)) = gramFun x y i j := by
  simp [Point.inner]

theorem Point.inner_smul_left (c : ℚ) (x y : Point) :
    Point.inner (c • x) y = c • Point.inner x y := by
  funext z
  induction z using Sym2.ind with
  | _ i j =>
    simp only [Point.inner_apply, Pi.smul_apply, smul_eq_mul, gramFun]
    split_ifs <;> ring

/-- Modelled from the spec: an `Expression` is a symbolic scalar, a constant
plus "a mapping from Generator → coefficient (the linear part) PLUS a set of
bilinear terms" carried on unordered pairs of vector generators. -/
@[ext]
structure Expression where
  const : ℚ
  lin : ℕ → ℚ
  quad : Sym2 ℕ → ℚ

/-- The Expression wrapping a single fresh scalar generator `i` (a function
value sample). -/
def Expression.scalGen (i : ℕ) : Expression :=
  ⟨0, fun j => if j = i then 1 else 0, fun _ => 0⟩

instance : Zero Expression := ⟨⟨0, fun _ => 0, fun _ => 0⟩⟩

instance : Add Expression := ⟨fun a b => ⟨a.const + b.const, a.lin + b.lin, a.quad + b.quad⟩⟩

instance : Neg Expression := ⟨fun a => ⟨-a.const, -a.lin, -a.quad⟩⟩

instance : Sub Expression := ⟨fun a b => ⟨a.const - b.const, a.lin - b.lin, a.quad - b.quad⟩⟩

instance : SMul ℚ Expression := ⟨fun c a => ⟨c * a.const, c • a.lin, c • a.quad⟩⟩

/-- Python `x * y` on two Points: the symbolic inner product, a purely
quadratic Expression. -/
instance : HMul Point Point Expression := ⟨fun x y => ⟨0, fun _ => 0, Point.inner x y⟩⟩

/-- Python `x ** 2` on a Point: the inner product of the Point with itself. -/
def Point.square (x : Point) : Expression := ⟨0, fun _ => 0, Point.inner x x⟩

@[simp] theorem Expression.zero_const : (0 : Expression).const = 0 := rfl

@[simp] theorem Expression.zero_lin (i : ℕ) : (0 : Expression).lin i = 0 := rfl

@[simp] theorem Expression.zero_quad (z : Sym2 ℕ) : (0 : Expression).quad z = 0 := rfl

@[simp] theorem Expression.add_const (a b : Expression) : (a + b).const = a.const + b.const := rfl

@[simp] theorem Expression.add_lin (a b : Expression) : (a + b).lin = a.lin + b.lin := rfl

@[simp] theorem Expression.add_quad (a b : Expression) : (a + b).quad = a.quad + b.quad := rfl

@[simp] theorem Expression.sub_const (a b : Expression) : (a - b).const = a.const - b.const := rfl

@[simp] theorem Expression.sub_lin (a b : Expression) : (a - b).lin = a.lin - b.lin := rfl

@[simp] theorem Expression.sub_quad (a b : Expression) : (a - b).quad = a.quad - b.quad := rfl

@[simp] theorem Expression.smul_const (c : ℚ) (a : Expression) : (c • a).const = c * a.const := rfl

@[simp] theorem Expression.smul_lin (c : ℚ) (a : Expression) : (c • a).lin = c • a.lin := rfl

@[simp] theorem Expression.smul_quad (c : ℚ) (a : Expression) : (c • a).quad = c • a.quad := rfl

@[simp] theorem Expression.mulPt_const (x y : Point) : (x * y : Expression).const = 0 := rfl

@[simp] theorem Expression.mulPt_lin (x y : Point) (i : ℕ) : (x * y : Expression).lin i = 0 := rfl

@[simp] theorem Expression.mulPt_quad (x y : Point) :
    (x * y : Expression).quad = Point.inner x y := rfl

@[simp] theorem Point.square_const (x : Point) : x.square.const = 0 := rfl

@[simp] theorem Point.square_lin (x : Point) (i : ℕ) : x.square.lin i = 0 := rfl

@[simp] theorem Point.square_quad (x : Point) : x.square.quad = Point.inner x x := rfl

/-- The relation tag of a symbolic constraint. -/
inductive ConstraintRel
  | ineq
  | eq
deriving DecidableEq

/-- Modelled from the spec: a `Constraint` is "a symbolic inequality or
equality between two Expressions".  `⟨a, b, .ineq⟩` records `a >= b`.  (The
human-readable name/group tag is ignored here: no claim is about it.) -/
structure Constraint where
  lhs : Expression
  rhs : Expression
  rel : ConstraintRel

/-- Python `a >= b` on Expressions: the inequality Constraint. -/
def Expression.ge (a b : Expression) : Constraint := ⟨a, b, ConstraintRel.ineq⟩

/-- Python `a <= b` on Expressions: the same inequality written the other way. -/
def Expression.le (a b : Expression) : Constraint := ⟨b, a, ConstraintRel.ineq⟩

/-- The state of a `SmoothFunction` object
(src/PEPit/functions/smooth_function.py): the smoothness parameter `L`, the
flags the base `Function` constructor stores, the recorded interpolation
triples `(x, g, f)`, and the accumulated class constraints. -/
structure SmoothFun where
  L : ℚ
  is_leaf : Bool
  reuse_gradient : Bool
  list_of_points : List (Point × Point × Expression)
  list_of_class_constraints : List Constraint

/-- `SmoothFunction.__init__` (src/PEPit/functions/smooth_function.py, lines
30-64) for a finite `L`: it stores `L` unchanged — there is no validation of
any kind, a negative `L` included — and forwards `reuse_gradient=True` to the
base constructor regardless of the caller's `reuse_gradient` argument (the
source note: smooth functions are necessarily differentiable).  The `L ==
np.inf` warning branch is modelled separately (`SmoothFunctionF.init` below),
since `np.inf` is not a rational. -/
def SmoothFunction.init (L : ℚ) (is_leaf : Bool) (reuse_gradient : Bool) : SmoothFun :=
  { L := L
    is_leaf := is_leaf
    reuse_gradient := true
    list_of_points := []
    list_of_class_constraints := [] }

/-- `SmoothFunction.set_smoothness_i_j` (src lines 66-81), operator for
operator: `fi - fj >= - self.L / 4 * (xi - xj) ** 2 + 1 / 2 * (gi + gj) * (xi
- xj) + 1 / (4 * self.L) * (gi - gj) ** 2`.  Python's precedence groups the
middle term as `(1/2 * (gi + gj)) * (xi - xj)`: a scaled Point times a Point. -/
def SmoothFun.set_smoothness_i_j (f : SmoothFun) (xi gi : Point) (fi : Expression)
    (xj gj : Point) (fj : Expression) : Constraint :=
  Expression.ge (fi - fj)
    ((-f.L / 4) • Point.square (xi - xj)
      + (((1 : ℚ) / 2) • (gi + gj)) * (xi - xj)
      + ((1 : ℚ) / (4 * f.L)) • Point.square (gi - gj))

/-- The spec's smoothness interpolation inequality in the spec's own grouping:
`f_i - f_j >= -L/4 (x_i-x_j)^2 + 1/2 (g_i+g_j)(x_i-x_j) + 1/(4L)(g_i-g_j)^2`,
with `1/2` scaling the whole inner product `(g_i+g_j)(x_i-x_j)`. -/
def smoothnessSpecConstraint (L : ℚ) (xi gi : Point) (fi : Expression)
    (xj gj : Point) (fj : Expression) : Constraint :=
  Expression.ge (fi - fj)
    ((-(L / 4)) • Point.square (xi - xj)
      + ((1 : ℚ) / 2) • ((gi + gj) * (xi - xj))
      + ((1 : ℚ) / (4 * L)) • Point.square (gi - gj))

/-- Modelled from the spec: the Basis Registry, "a monotonically increasing
counter private to the owning Problem" for vector generators and one for
scalar generators; "no two generators created for the same Problem ever share
an index". -/
structure Registry where
  vecCounter : ℕ
  scalCounter : ℕ

/-- Boolean test that two symbolic vectors agree on every generator index
below `n`.  Every Point a Problem has constructed has support below the Basis
Registry's vector counter, so comparing below the current counter decides
whether a query Point equals a recorded one (Python compares the sparse
decomposition dicts). -/
def eqBelow (n : ℕ) (x y : Point) : Bool := decide (∀ i < n, x i = y i)

theorem eqBelow_rfl (n : ℕ) (x : Point) : eqBelow n x x = true := by
  simp [eqBelow]

theorem eqBelow_mono {m n : ℕ} (h : m ≤ n) (x y : Point) :
    eqBelow n x y = true → eqBelow m x y = true := by
  simp only [eqBelow, decide_eq_true_eq]
  intro hn i hi
  exact hn i (lt_of_lt_of_le hi h)

/-- The oracle-facing state of a `Function` object: its `reuse_gradient` flag
and its recorded interpolation triples `(point, gradient, value)`. -/
structure FunState where
  reuse_gradient : Bool
  list_of_points : List (Point × Point × Expression)

/-- Modelled from the spec: `Function.oracle(point)` — "if `point` was already
queried and `reuse_gradient` is true, return the stored pair; otherwise
allocate a fresh gradient Generator (wrapped as a Point) and a fresh scalar
Generator (wrapped as an Expression), record the triple, and return them". -/
def Function.oracle (st : FunState) (reg : Registry) (p : Point) :
    (Point × Expression) × FunState × Registry :=
  match (if st.reuse_gradient then
          st.list_of_points.find? (fun t => eqBelow reg.vecCounter t.1 p)
        else none) with
  | some t => ((t.2.1, t.2.2), st, reg)
  | none =>
      let g : Point := Point.gen reg.vecCounter
      let v : Expression := Expression.scalGen reg.scalCounter
      ((g, v), ⟨st.reuse_gradient, st.list_of_points ++ [(p, g, v)]⟩,
        ⟨reg.vecCounter + 1, reg.scalCounter + 1⟩)

/-- C8: with `reuse_gradient = true`, a second `oracle` call on the same Point
returns the identical stored gradient/value pair (and leaves the state
untouched); with `reuse_gradient = false`, the second call allocates and
returns a gradient Point and a value Expression distinct from the first
call's. -/
theorem oracle_idempotent_iff_reuse_gradient (st : FunState) (reg : Registry) (p : Point) :
    (Function.oracle (Function.oracle ⟨true, st.list_of_points⟩ reg p).2.1
        (Function.oracle ⟨true, st.list_of_points⟩ reg p).2.2 p =
      Function.oracle ⟨true, st.list_of_points⟩ reg p)
    ∧ ((Function.oracle (Function.oracle ⟨false, st.list_of_points⟩ reg p).2.1
          (Function.oracle ⟨false, st.list_of_points⟩ reg p).2.2 p).1.1 ≠
        (Function.oracle ⟨false, st.list_of_points⟩ reg p).1.1
      ∧ (Function.oracle (Function.oracle ⟨false, st.list_of_points⟩ reg p).2.1
            (Function.oracle ⟨false, st.list_of_points⟩ reg p).2.2 p).1.2 ≠
          (Function.oracle ⟨false, st.list_of_points⟩ reg p).1.2) := by
  constructor
  · rcases h : (⟨true, st.list_of_points⟩ : FunState).list_of_points.find?
        (fun t => eqBelow reg.vecCounter t.1 p) with _ | t
    · have hall : ∀ t ∈ st.list_of_points, ¬ (eqBelow reg.vecCounter t.1 p = true) := by
        simpa [List.find?_eq_none] using h
      have hnone2 : (st.list_of_points.find?
          (fun t => eqBelow (reg.vecCounter + 1) t.1 p)) = none := by
        rw [List.find?_eq_none]
        intro t ht
        simp only [Bool.not_eq_true] at hall ⊢
        rcases hb : eqBelow (reg.vecCounter + 1) t.1 p with _ | _
        · rfl
        · exact absurd (eqBelow_mono (Nat.le_succ _) _ _ hb) (by simpa using hall t ht)
      show Function.oracle _ _ _ = _
      unfold Function.oracle
      simp only [h, if_true]
      simp only [List.find?_append, hnone2, if_true, Option.none_or]
      simp [List.find?, eqBelow_rfl]
    · unfold Function.oracle
      simp [h]
  · unfold Function.oracle
    simp only [if_neg (by simp : ¬ (false = true))]
    refine ⟨?_, ?_⟩
    · intro hg
      have h1 := congrFun hg reg.vecCounter
      simp [Point.gen] at h1
    · intro hv
      have h1 := congrFun (congrArg Expression.lin hv) reg.scalCounter
      simp [Expression.scalGen] at h1

/-- C10: whatever `reuse_gradient` argument is passed to the `SmoothFunction`
constructor, the constructed object has `reuse_gradient = true`: the argument
is discarded and `True` is forwarded to the base `Function` constructor. -/
theorem smooth_reuse_gradient_forced_true (L : ℚ) (is_leaf reuse_gradient : Bool) :
    (SmoothFunction.init L is_leaf reuse_gradient).reuse_gradient = true := rfl

/-- C7 counterexample: declaring a `SmoothFunction` with the out-of-domain
parameter `L = -1` does not fail: the constructor is total, raises nothing,
and stores `-1` unchanged as the smoothness parameter. -/
theorem smooth_negative_L_accepted :
    (SmoothFunction.init (-1) true true).L = -1 := rfl

/-- The generated smoothness constraint coincides with the spec's formula:
shared helper for the claims below. -/
theorem set_smoothness_eq_spec (f : SmoothFun) (xi gi : Point)
    (fi : Expression) (xj gj : Point) (fj : Expression) :
    f.set_smoothness_i_j xi gi fi xj gj fj =
      smoothnessSpecConstraint f.L xi gi fi xj gj fj := by
  unfold SmoothFun.set_smoothness_i_j smoothnessSpecConstraint Expression.ge
  congr 1
  ext z
  · simp
  · simp
  · simp only [Expression.add_quad, Expression.smul_quad, Expression.mulPt_quad,
      Point.square_quad, Point.inner_smul_left, neg_div]

/-- C1: for every pair of recorded interpolation triples, the constraint
`SmoothFunction.set_smoothness_i_j` generates is exactly the spec's inequality
`f_i - f_j >= -L/4 (x_i-x_j)^2 + 1/2 (g_i+g_j)(x_i-x_j) + 1/(4L)(g_i-g_j)^2`. -/
theorem smooth_set_smoothness_i_j_matches_spec (f : SmoothFun) (xi gi : Point)
    (fi : Expression) (xj gj : Point) (fj : Expression) :
    f.set_smoothness_i_j xi gi fi xj gj fj =
      smoothnessSpecConstraint f.L xi gi fi xj gj fj :=
  set_smoothness_eq_spec f xi gi fi xj gj fj

/-- C7 amended: a negative smoothness constant is silently accepted: for every
`L < 0` the constructor succeeds, stores `L` without clipping or error, and
`set_smoothness_i_j` happily produces the smoothness inequality with that
negative `L` (so no failure occurs at constraint-generation time either). -/
theorem smooth_negative_L_silently_stored (L : ℚ) (h : L < 0) :
    (SmoothFunction.init L true true).L = L
    ∧ (SmoothFunction.init L true true).L ≠ 0
    ∧ ∀ (xi gi : Point) (fi : Expression) (xj gj : Point) (fj : Expression),
        (SmoothFunction.init L true true).set_smoothness_i_j xi gi fi xj gj fj =
          smoothnessSpecConstraint L xi gi fi xj gj fj := by
  refine ⟨rfl, ne_of_lt h, fun xi gi fi xj gj fj => ?_⟩
  exact set_smoothness_eq_spec (SmoothFunction.init L true true) xi gi fi xj gj fj

/-- Modelled from the spec: the base-class helper
`Function.add_constraints_from_two_lists_of_points` is not part of the
snapshot; per the spec each concrete leaf class "emits, for every (unordered
or ordered, per class semantics) pair of its recorded interpolation points,
exactly one inequality", and for the Smooth class the spec fixes the ordered
semantics: "for every ordered pair (i, j) of interpolation points", "k²
constraints (ordered pairs, including i=j)". -/
def add_constraints_from_two_lists_of_points {X G V C : Type}
    (list_of_points_1 list_of_points_2 : List (X × G × V))
    (set_class_constraint_i_j : X → G → V → X → G → V → C) :
    List C :=
  list_of_points_1.flatMap fun pi =>
    list_of_points_2.map fun pj =>
      set_class_constraint_i_j pi.1 pi.2.1 pi.2.2 pj.1 pj.2.1 pj.2.2

theorem add_constraints_from_two_lists_length {X G V C : Type}
    (l1 l2 : List (X × G × V))
    (s : X → G → V → X → G → V → C) :
    (add_constraints_from_two_lists_of_points l1 l2 s).length = l1.length * l2.length := by
  induction l1 with
  | nil => simp [add_constraints_from_two_lists_of_points]
  | cons t l1 ih =>
    simp only [add_constraints_from_two_lists_of_points, List.flatMap_cons,
      List.length_append, List.length_map, List.length_cons] at *
    rw [ih]
    ring

/-- `SmoothFunction.add_class_constraints` (src lines 83-93): the body is a
bare call to `add_constraints_from_two_lists_of_points` with `list_of_points`
on both sides and `set_smoothness_i_j` as the pairwise generator; the
generated constraints are recorded on the function object, and the method has
**no `return` statement**, so its Python return value is `None` — modelled as
the `none` component of the result. -/
def SmoothFun.add_class_constraints (f : SmoothFun) : SmoothFun × Option (List Constraint) :=
  ({ f with
      list_of_class_constraints := f.list_of_class_constraints ++
        add_constraints_from_two_lists_of_points f.list_of_points f.list_of_points
          f.set_smoothness_i_j },
    none)

/-- `Function.oracle` acting on a `SmoothFunction` object (the oracle
machinery is inherited unchanged from the base class). -/
def SmoothFun.oracle (f : SmoothFun) (reg : Registry) (p : Point) :
    (Point × Expression) × SmoothFun × Registry :=
  ((Function.oracle ⟨f.reuse_gradient, f.list_of_points⟩ reg p).1,
    { f with list_of_points :=
        (Function.oracle ⟨f.reuse_gradient, f.list_of_points⟩ reg p).2.1.list_of_points },
    (Function.oracle ⟨f.reuse_gradient, f.list_of_points⟩ reg p).2.2)

/-- Querying the oracle of a `SmoothFunction` once per Point of a list,
threading the function state and the Basis Registry. -/
def SmoothFun.oracleRun (f : SmoothFun) (reg : Registry) (ps : List Point) :
    SmoothFun × Registry :=
  ps.foldl (fun acc p => ((acc.1.oracle acc.2 p).2.1, (acc.1.oracle acc.2 p).2.2)) (f, reg)

theorem eqBelow_eq_false_of_ne_bounded {n : ℕ} {x y : Point}
    (hx : ∀ i, n ≤ i → x i = 0) (hy : ∀ i, n ≤ i → y i = 0) (hne : x ≠ y) :
    eqBelow n x y = false := by
  rw [eqBelow, decide_eq_false_iff_not]
  intro hall
  apply hne
  funext i
  rcases lt_or_ge i n with h | h
  · exact hall i h
  · rw [hx i h, hy i h]

theorem find?_eqBelow_none (l : List (Point × Point × Expression)) (n : ℕ) (p : Point)
    (h : ∀ t ∈ l, t.1 ≠ p) (hb : ∀ t ∈ l, ∀ i, n ≤ i → t.1 i = 0)
    (hp : ∀ i, n ≤ i → p i = 0) :
    l.find? (fun t => eqBelow n t.1 p) = none := by
  rw [List.find?_eq_none]
  intro t ht
  simp [eqBelow_eq_false_of_ne_bounded (hb t ht) hp (h t ht)]

/-- Invariant of a run of distinct fresh queries: the recorded query points
are the old ones followed by the queried list, and the vector counter only
grows. -/
theorem oracleRun_records (ps : List Point) :
    ∀ (f : SmoothFun) (reg : Registry),
      f.reuse_gradient = true →
      (∀ q ∈ f.list_of_points.map Prod.fst, ∀ i, reg.vecCounter ≤ i → q i = 0) →
      (∀ p ∈ ps, ∀ i, reg.vecCounter ≤ i → p i = 0) →
      (∀ p ∈ ps, ∀ q ∈ f.list_of_points.map Prod.fst, q ≠ p) →
      ps.Pairwise (· ≠ ·) →
      (f.oracleRun reg ps).1.list_of_points.map Prod.fst =
          f.list_of_points.map Prod.fst ++ ps
        ∧ reg.vecCounter ≤ (f.oracleRun reg ps).2.vecCounter := by
  induction ps with
  | nil =>
    intro f reg _ _ _ _ _
    simp [SmoothFun.oracleRun]
  | cons x xs ihx =>
    intro f reg hreuse hbq hbp hnew hpair
    have hfind : f.list_of_points.find? (fun t => eqBelow reg.vecCounter t.1 x) = none := by
      apply find?_eqBelow_none
      · intro t ht
        exact hnew x (by simp) t.1 (List.mem_map_of_mem Prod.fst ht)
      · intro t ht
        exact hbq t.1 (List.mem_map_of_mem Prod.fst ht)
      · exact hbp x (by simp)
    have hstep : f.oracle reg x =
        ((Point.gen reg.vecCounter, Expression.scalGen reg.scalCounter),
          { f with list_of_points :=
              f.list_of_points ++ [(x, Point.gen reg.vecCounter,
                Expression.scalGen reg.scalCounter)] },
          ⟨reg.vecCounter + 1, reg.scalCounter + 1⟩) := by
      unfold SmoothFun.oracle Function.oracle
      simp [hreuse, hfind]
    have hrun : (f.oracleRun reg (x :: xs)) =
        (({ f with list_of_points :=
              f.list_of_points ++ [(x, Point.gen reg.vecCounter,
                Expression.scalGen reg.scalCounter)] } : SmoothFun).oracleRun
          ⟨reg.vecCounter + 1, reg.scalCounter + 1⟩ xs) := by
      unfold SmoothFun.oracleRun
      simp only [List.foldl_cons, hstep]
    rw [hrun]
    have hmono : ∀ (q : Point), (∀ i, reg.vecCounter ≤ i → q i = 0) →
        (∀ i, reg.vecCounter + 1 ≤ i → q i = 0) := by
      intro q hq i hi
      exact hq i (le_trans (Nat.le_succ _) hi)
    obtain ⟨h1, h2⟩ := ihx
      ({ f with list_of_points :=
          f.list_of_points ++ [(x, Point.gen reg.vecCounter,
            Expression.scalGen reg.scalCounter)] })
      ⟨reg.vecCounter + 1, reg.scalCounter + 1⟩
      hreuse
      (by
        intro q hq
        simp only [List.map_append, List.map_cons, List.map_nil, List.mem_append,
          List.mem_singleton] at hq
        rcases hq with hq | hq
        · exact hmono q (hbq q hq)
        · rw [hq]
          exact hmono x (hbp x (by simp)))
      (by
        intro p' hp'
        exact hmono p' (hbp p' (by simp [hp'])))
      (by
        intro p' hp' q hq
        simp only [List.map_append, List.map_cons, List.map_nil, List.mem_append,
          List.mem_singleton] at hq
        rcases hq with hq | hq
        · exact hnew p' (by simp [hp']) q hq
        · rw [hq]
          exact (List.pairwise_cons.1 hpair).1 p' hp')
      ((List.pairwise_cons.1 hpair).2)
    constructor
    · rw [h1]
      simp
    · exact le_trans (Nat.le_succ _) h2

/-- An oracle run never touches the accumulated class constraints. -/
theorem oracleRun_class_constraints (ps : List Point) :
    ∀ (f : SmoothFun) (r : Registry),
      (f.oracleRun r ps).1.list_of_class_constraints = f.list_of_class_constraints := by
  induction ps with
  | nil =>
    intro f r
    simp [SmoothFun.oracleRun]
  | cons x xs ihx =>
    intro f r
    unfold SmoothFun.oracleRun at *
    simp only [List.foldl_cons]
    rw [ihx]
    unfold SmoothFun.oracle Function.oracle
    rcases hb : (if (⟨f.reuse_gradient, f.list_of_points⟩ : FunState).reuse_gradient = true
        then f.list_of_points.find? (fun t => eqBelow r.vecCounter t.1 x)
        else none) with _ | t <;> simp [hb]

/-- C2: a fresh leaf `SmoothFunction` (with `reuse_gradient` true, as the
constructor forces) queried at `k` pairwise-distinct Points records `k`
interpolation triples, and `add_class_constraints` then generates exactly
`k² = k*k` smoothness constraints — one per ordered pair of recorded points,
pairs with `i = j` included. -/
theorem smooth_add_class_constraints_count_sq (L : ℚ) (reg : Registry) (ps : List Point)
    (hbound : ∀ p ∈ ps, ∀ i, reg.vecCounter ≤ i → p i = 0)
    (hdist : ps.Pairwise (· ≠ ·)) :
    ((SmoothFunction.init L true true).oracleRun reg ps).1.list_of_points.length = ps.length
    ∧ (((SmoothFunction.init L true true).oracleRun reg
          ps).1.add_class_constraints).1.list_of_class_constraints.length =
        ps.length ^ 2 := by
  obtain ⟨h1, _⟩ := oracleRun_records ps (SmoothFunction.init L true true) reg rfl
    (by intro q hq; simp [SmoothFunction.init] at hq)
    hbound
    (by intro p' _ q hq; simp [SmoothFunction.init] at hq)
    hdist
  have hlen : ((SmoothFunction.init L true true).oracleRun
      reg ps).1.list_of_points.length = ps.length := by
    have := congrArg List.length h1
    simpa [SmoothFunction.init] using this
  refine ⟨hlen, ?_⟩
  have hrunL : ((SmoothFunction.init L true true).oracleRun reg
      ps).1.list_of_class_constraints = [] :=
    oracleRun_class_constraints ps (SmoothFunction.init L true true) reg
  simp only [SmoothFun.add_class_constraints, List.length_append, hrunL,
    List.length_nil, Nat.zero_add, add_constraints_from_two_lists_length, hlen]
  ring

/-- Witness for C2 at the concrete input: two distinct fresh Points, a
registry whose counter is past both. -/
theorem smooth_add_class_constraints_count_sq_witness :
    ((SmoothFunction.init 1 true true).oracleRun ⟨2, 0⟩
        [Point.gen 0, Point.gen 1]).1.list_of_points.length =
      ([Point.gen 0, Point.gen 1] : List Point).length
    ∧ (((SmoothFunction.init 1 true true).oracleRun ⟨2, 0⟩
          [Point.gen 0, Point.gen 1]).1.add_class_constraints).1.list_of_class_constraints.length =
        ([Point.gen 0, Point.gen 1] : List Point).length ^ 2 :=
  smooth_add_class_constraints_count_sq 1 ⟨2, 0⟩ [Point.gen 0, Point.gen 1]
    (by
      intro p hp i hi
      have hi2 : 2 ≤ i := hi
      have h0 : i ≠ 0 := by omega
      have h1 : i ≠ 1 := by omega
      simp only [List.mem_cons, List.not_mem_nil, or_false] at hp
      rcases hp with hp | hp
      · subst hp; simp [Point.gen, h0]
      · subst hp; simp [Point.gen, h1])
    (by
      refine List.pairwise_cons.2 ⟨?_, List.pairwise_singleton _ _⟩
      intro q hq
      simp only [List.mem_singleton] at hq
      subst hq
      intro h
      have := congrFun h 0
      simp [Point.gen] at this)

/-- C3 counterexample: `add_class_constraints` on a freshly declared
`SmoothFunction` does not return a list of Constraints — the method has no
`return` statement, so the call returns `None`. -/
theorem smooth_add_class_constraints_returns_none :
    ((SmoothFunction.init 1 true true).add_class_constraints).2.isSome = false := rfl

/-- C3 amended: for every state of the recorded interpolation points,
`add_class_constraints` returns `None`; the generated constraints (one per
ordered pair of recorded points) are appended to the function's own
`list_of_class_constraints` rather than returned. -/
theorem smooth_add_class_constraints_records_on_self (f : SmoothFun) :
    (f.add_class_constraints).2 = none
    ∧ (f.add_class_constraints).1.list_of_class_constraints =
        f.list_of_class_constraints ++
          add_constraints_from_two_lists_of_points f.list_of_points f.list_of_points
            f.set_smoothness_i_j
    ∧ (f.add_class_constraints).1.list_of_class_constraints.length =
        f.list_of_class_constraints.length + f.list_of_points.length ^ 2 := by
  refine ⟨rfl, rfl, ?_⟩
  simp only [SmoothFun.add_class_constraints, List.length_append,
    add_constraints_from_two_lists_length]
  ring

/-- Witness for the amended C7 at the concrete input `L = -1`. -/
theorem smooth_negative_L_silently_stored_witness :
    (SmoothFunction.init (-1) true true).L = -1
    ∧ (SmoothFunction.init (-1) true true).L ≠ 0
    ∧ ∀ (xi gi : Point) (fi : Expression) (xj gj : Point) (fj : Expression),
        (SmoothFunction.init (-1) true true).set_smoothness_i_j xi gi fi xj gj fj =
          smoothnessSpecConstraint (-1) xi gi fi xj gj fj :=
  smooth_negative_L_silently_stored (-1) (by norm_num)

/-- Modelled from the spec: the per-leaf oracle state of a whole Problem — the
states of the declared leaf Functions, indexed by declaration index, plus the
shared Basis Registry ("an explicit registry object passed by reference ...
from Problem to every Function/Point constructor"). -/
structure PEPSystem where
  leaves : ℕ → FunState
  reg : Registry

/-- Querying leaf `i`'s inherited `Function.oracle` inside a system. -/
def leafOracle (sys : PEPSystem) (i : ℕ) (p : Point) : (Point × Expression) × PEPSystem :=
  ((Function.oracle (sys.leaves i) sys.reg p).1,
    ⟨fun j => if j = i then (Function.oracle (sys.leaves i) sys.reg p).2.1 else sys.leaves j,
      (Function.oracle (sys.leaves i) sys.reg p).2.2⟩)

/-- Modelled from the spec: a PEPit `Function` object as the combination
machinery sees it — two structural variants, "leaf" and "combination (defined
as an affine/linear combination of other Functions, with a decomposition
mapping Function → coefficient)", the mapping keyed here by leaf index. -/
structure Func where
  is_leaf : Bool
  decomposition_dict : List (ℕ × ℚ)

/-- A leaf Function: its decomposition is itself with coefficient one. -/
def Func.leaf (i : ℕ) : Func := ⟨true, [(i, 1)]⟩

/-- Python `A + B` on Functions: a combination merging the decompositions. -/
instance : Add Func :=
  ⟨fun f g => ⟨false, f.decomposition_dict ++ g.decomposition_dict⟩⟩

/-- Python `A - B` on Functions: a combination with `B`'s coefficients negated. -/
instance : Sub Func :=
  ⟨fun f g => ⟨false,
    f.decomposition_dict ++ g.decomposition_dict.map (fun ic => (ic.1, -ic.2))⟩⟩

/-- Python `A / c` on Functions: every decomposition coefficient divided by `c`. -/
instance : HDiv Func ℚ Func :=
  ⟨fun f c => ⟨false, f.decomposition_dict.map (fun ic => (ic.1, ic.2 / c))⟩⟩

/-- Modelled from the spec: a combination Function's oracle "delegate[s]
`oracle` calls to each component scaled by its decomposition coefficient and
sum[s] the results", threading the per-leaf states and the registry. -/
def Func.oracle (f : Func) (sys : PEPSystem) (p : Point) :
    (Point × Expression) × PEPSystem :=
  f.decomposition_dict.foldl
    (fun acc ic =>
      ((acc.1.1 + ic.2 • (leafOracle acc.2 ic.1 p).1.1,
        acc.1.2 + ic.2 • (leafOracle acc.2 ic.1 p).1.2),
        (leafOracle acc.2 ic.1 p).2))
    (((fun _ => 0 : Point), (0 : Expression)), sys)

/-- Modelled from the spec: composite Functions "return an empty constraint
list from `add_class_constraints` since the combination itself is not a leaf —
constraints come only from leaves"; a leaf defers to its class-specific
generator `gen`. -/
def Func.add_class_constraints (gen : ℕ → List Constraint) (f : Func) : List Constraint :=
  if f.is_leaf then f.decomposition_dict.flatMap (fun ic => gen ic.1) else []

/-- Modelled from the spec: at solve time the Problem "walk[s] every declared
Function's decomposition graph to collect the set of leaf Functions" — each
leaf once. -/
def collectLeafIds (declared : List Func) : List ℕ :=
  (declared.flatMap (fun f => f.decomposition_dict.map Prod.fst)).dedup

/-- Modelled from the spec: the compiled problem's class constraints are the
union over the collected leaves of each leaf's `add_class_constraints`. -/
def compiledClassConstraints (gen : ℕ → List Constraint) (declared : List Func) :
    List Constraint :=
  (collectLeafIds declared).flatMap gen

theorem Expression.smul_sub_distrib (c : ℚ) (a b : Expression) :
    c • (a - b) = c • a - c • b := by
  ext z
  · simp [mul_sub]
  · simp [smul_sub, mul_sub]
  · simp [smul_sub, mul_sub]

/-- C4: querying the combination `(A - B) / 2` delegates to `A`'s and `B`'s
oracles (in decomposition order) and returns `(gA - gB)/2` and `(vA - vB)/2`;
the combination is not a leaf and contributes zero class constraints of its
own, while the compiled problem keeps each of `A`'s and `B`'s constraint
blocks exactly once. -/
theorem combination_half_difference_propagation (a b : ℕ) (sys : PEPSystem) (p : Point)
    (gen : ℕ → List Constraint) (hab : a ≠ b) :
    (((Func.leaf a - Func.leaf b) / (2 : ℚ)).oracle sys p).1.1 =
        ((1 : ℚ) / 2) •
          ((leafOracle sys a p).1.1 - (leafOracle (leafOracle sys a p).2 b p).1.1)
    ∧ (((Func.leaf a - Func.leaf b) / (2 : ℚ)).oracle sys p).1.2 =
        ((1 : ℚ) / 2) •
          ((leafOracle sys a p).1.2 - (leafOracle (leafOracle sys a p).2 b p).1.2)
    ∧ (((Func.leaf a - Func.leaf b) / (2 : ℚ)).oracle sys p).2 =
        (leafOracle (leafOracle sys a p).2 b p).2
    ∧ ((Func.leaf a - Func.leaf b) / (2 : ℚ)).is_leaf = false
    ∧ ((Func.leaf a - Func.leaf b) / (2 : ℚ)).add_class_constraints gen = []
    ∧ collectLeafIds [Func.leaf a, Func.leaf b] = [a, b]
    ∧ (collectLeafIds [Func.leaf a, Func.leaf b]).count a = 1
    ∧ (collectLeafIds [Func.leaf a, Func.leaf b]).count b = 1
    ∧ compiledClassConstraints gen [Func.leaf a, Func.leaf b] = gen a ++ gen b := by
  have hcollect : collectLeafIds [Func.leaf a, Func.leaf b] = [a, b] := by
    unfold collectLeafIds Func.leaf
    simp only [List.flatMap_cons, List.flatMap_nil, List.map_cons, List.map_nil,
      List.append_nil, List.cons_append, List.nil_append]
    rw [List.dedup_cons_of_not_mem (by simp [hab]), List.dedup_cons_of_not_mem (by simp)]
    simp
  have hfold : ((Func.leaf a - Func.leaf b) / (2 : ℚ)).oracle sys p =
      ((((fun _ => 0 : Point) + ((1 : ℚ) / 2) • (leafOracle sys a p).1.1)
          + (-(1 : ℚ) / 2) • (leafOracle (leafOracle sys a p).2 b p).1.1,
        ((0 : Expression) + ((1 : ℚ) / 2) • (leafOracle sys a p).1.2)
          + (-(1 : ℚ) / 2) • (leafOracle (leafOracle sys a p).2 b p).1.2),
        (leafOracle (leafOracle sys a p).2 b p).2) := rfl
  refine ⟨?_, ?_, ?_, rfl, rfl, hcollect, ?_, ?_, ?_⟩
  · rw [hfold]
    funext i
    simp only [Pi.add_apply, Pi.smul_apply, Pi.sub_apply, smul_eq_mul]
    ring
  · rw [hfold]
    rw [Expression.smul_sub_distrib]
    ext z
    · simp only [Expression.add_const, Expression.sub_const, Expression.smul_const,
        Expression.zero_const]
      ring
    · simp only [Expression.add_lin, Expression.sub_lin, Expression.smul_lin,
        Expression.zero_lin, Pi.add_apply, Pi.sub_apply, Pi.smul_apply, smul_eq_mul]
      ring
    · simp only [Expression.add_quad, Expression.sub_quad, Expression.smul_quad,
        Expression.zero_quad, Pi.add_apply, Pi.sub_apply, Pi.smul_apply, smul_eq_mul]
      ring
  · rw [hfold]
  · rw [hcollect]
    simp [List.count_cons, hab]
  · rw [hcollect]
    simp [List.count_cons, Ne.symm hab]
  · unfold compiledClassConstraints
    rw [hcollect]
    simp

/-- Witness for C4 at the concrete input: leaves `0` and `1`, the empty
system, the zero query Point and a generator with no constraints. -/
theorem combination_half_difference_propagation_witness :
    (((Func.leaf 0 - Func.leaf 1) / (2 : ℚ)).oracle
        ⟨fun _ => ⟨true, []⟩, ⟨0, 0⟩⟩ (fun _ => 0)).1.1 =
        ((1 : ℚ) / 2) •
          ((leafOracle ⟨fun _ => ⟨true, []⟩, ⟨0, 0⟩⟩ 0 (fun _ => 0)).1.1 -
            (leafOracle (leafOracle ⟨fun _ => ⟨true, []⟩, ⟨0, 0⟩⟩ 0 (fun _ => 0)).2 1
              (fun _ => 0)).1.1)
    ∧ (((Func.leaf 0 - Func.leaf 1) / (2 : ℚ)).oracle
          ⟨fun _ => ⟨true, []⟩, ⟨0, 0⟩⟩ (fun _ => 0)).1.2 =
        ((1 : ℚ) / 2) •
          ((leafOracle ⟨fun _ => ⟨true, []⟩, ⟨0, 0⟩⟩ 0 (fun _ => 0)).1.2 -
            (leafOracle (leafOracle ⟨fun _ => ⟨true, []⟩, ⟨0, 0⟩⟩ 0 (fun _ => 0)).2 1
              (fun _ => 0)).1.2)
    ∧ (((Func.leaf 0 - Func.leaf 1) / (2 : ℚ)).oracle
          ⟨fun _ => ⟨true, []⟩, ⟨0, 0⟩⟩ (fun _ => 0)).2 =
        (leafOracle (leafOracle ⟨fun _ => ⟨true, []⟩, ⟨0, 0⟩⟩ 0 (fun _ => 0)).2 1
          (fun _ => 0)).2
    ∧ ((Func.leaf 0 - Func.leaf 1) / (2 : ℚ)).is_leaf = false
    ∧ ((Func.leaf 0 - Func.leaf 1) / (2 : ℚ)).add_class_constraints (fun _ => []) = []
    ∧ collectLeafIds [Func.leaf 0, Func.leaf 1] = [0, 1]
    ∧ (collectLeafIds [Func.leaf 0, Func.leaf 1]).count 0 = 1
    ∧ (collectLeafIds [Func.leaf 0, Func.leaf 1]).count 1 = 1
    ∧ compiledClassConstraints (fun _ => []) [Func.leaf 0, Func.leaf 1] =
        (fun _ => ([] : List Constraint)) 0 ++ (fun _ => ([] : List Constraint)) 1 :=
  combination_half_difference_propagation 0 1 ⟨fun _ => ⟨true, []⟩, ⟨0, 0⟩⟩ (fun _ => 0)
    (fun _ => []) (by decide)

/-- Modelled from the spec: the Problem object "owns ... an ordered list of
performance-metric Expressions"; only that list matters to the claim below. -/
structure Problem where
  list_of_performance_metrics : List Expression

/-- Modelled from the spec: `setPerformanceMetric` "record[s] ... one-or-more
candidate objective Expressions". -/
def Problem.set_performance_metric (prob : Problem) (e : Expression) : Problem :=
  ⟨prob.list_of_performance_metrics ++ [e]⟩

/-- Modelled from the spec: at solve time "their minimum becomes the metric to
be maximized in the worst case"; `ev` gives the numeric value the SDP solution
assigns to each metric Expression, and the measure is the minimum of the
values of all recorded metrics (`none` when no metric was recorded). -/
def Problem.performanceMeasure (prob : Problem) (ev : Expression → ℚ) : Option ℚ :=
  match prob.list_of_performance_metrics.map ev with
  | [] => none
  | x :: xs => some (xs.foldl min x)

theorem foldl_min_le_and_mem (xs : List ℚ) :
    ∀ x : ℚ, (∀ y ∈ x :: xs, xs.foldl min x ≤ y)
      ∧ (xs.foldl min x = x ∨ xs.foldl min x ∈ xs) := by
  induction xs with
  | nil =>
    intro x
    refine ⟨?_, Or.inl rfl⟩
    intro y hy
    simp only [List.mem_singleton] at hy
    simp [hy]
  | cons z zs ih =>
    intro x
    obtain ⟨hle, hmem⟩ := ih (min x z)
    constructor
    · intro y hy
      simp only [List.foldl_cons]
      rcases List.mem_cons.1 hy with hy | hy
      · exact le_trans (hle (min x z) (by simp)) (by rw [hy]; exact min_le_left _ _)
      · rcases List.mem_cons.1 hy with hy | hy
        · exact le_trans (hle (min x z) (by simp)) (by rw [hy]; exact min_le_right _ _)
        · exact hle y (by simp [hy])
    · simp only [List.foldl_cons]
      rcases hmem with hm | hm
      · rcases min_choice x z with hc | hc
        · exact Or.inl (by rw [hm, hc])
        · exact Or.inr (by rw [hm, hc]; simp)
      · exact Or.inr (by simp [hm])

theorem foldl_set_performance_metric (es : List Expression) :
    ∀ prob : Problem,
      (es.foldl Problem.set_performance_metric prob).list_of_performance_metrics =
        prob.list_of_performance_metrics ++ es := by
  induction es with
  | nil => intro prob; simp
  | cons e es ih =>
    intro prob
    simp only [List.foldl_cons]
    rw [ih]
    simp [Problem.set_performance_metric]

/-- C9: recording `n` performance-metric Expressions on a Problem leaves a
list of exactly `n` metrics, and the performance measure `solve` maximizes is
the minimum of the values of all of them: it is a lower bound of every
recorded metric's value and is attained by one of them. -/
theorem performance_metric_minimum (prob : Problem) (es : List Expression)
    (ev : Expression → ℚ) :
    (es.foldl Problem.set_performance_metric prob).list_of_performance_metrics.length =
        prob.list_of_performance_metrics.length + es.length
    ∧ (∀ m : ℚ,
        (es.foldl Problem.set_performance_metric prob).performanceMeasure ev = some m →
          (∀ e ∈ (es.foldl Problem.set_performance_metric prob).list_of_performance_metrics,
              m ≤ ev e)
          ∧ (∃ e ∈ (es.foldl Problem.set_performance_metric prob).list_of_performance_metrics,
              ev e = m))
    ∧ ((es.foldl Problem.set_performance_metric prob).performanceMeasure ev = none ↔
        prob.list_of_performance_metrics = [] ∧ es = []) := by
  have hlist := foldl_set_performance_metric es prob
  refine ⟨by rw [hlist]; simp, ?_, ?_⟩
  · intro m hm
    unfold Problem.performanceMeasure at hm
    rcases hmap : (es.foldl Problem.set_performance_metric
        prob).list_of_performance_metrics.map ev with _ | ⟨x, xs⟩
    · rw [hmap] at hm
      cases hm
    · rw [hmap] at hm
      simp only [Option.some_inj] at hm
      obtain ⟨hle, hmem⟩ := foldl_min_le_and_mem xs x
      constructor
      · intro e he
        have : ev e ∈ (es.foldl Problem.set_performance_metric
            prob).list_of_performance_metrics.map ev := List.mem_map_of_mem ev he
        rw [hmap] at this
        rw [← hm]
        exact hle (ev e) this
      · have : m ∈ (es.foldl Problem.set_performance_metric
            prob).list_of_performance_metrics.map ev := by
          rw [hmap]
          rcases hmem with h | h
          · rw [hm] at h
            simp [← h]
          · rw [hm] at h
            simp [h]
        obtain ⟨e, he, hev⟩ := List.mem_map.1 this
        exact ⟨e, he, hev⟩
  · unfold Problem.performanceMeasure
    rw [hlist]
    rcases h : (prob.list_of_performance_metrics ++ es).map ev with _ | ⟨x, xs⟩
    · simpa using h
    · constructor
      · intro hc
        cases hc
      · intro ⟨h1, h2⟩
        rw [h1, h2] at h
        cases h

/-- A Python float as the degenerate-parameter model needs it: an exact
rational, one of the two IEEE infinities, or nan.  `np.inf` is `inf`. -/
inductive PyFloat
  | nan
  | inf
  | ninf
  | fin (q : ℚ)
deriving DecidableEq

instance (n : ℕ) : OfNat PyFloat n := ⟨PyFloat.fin n⟩

/-- IEEE negation. -/
def PyFloat.neg : PyFloat → PyFloat
  | nan => nan
  | inf => ninf
  | ninf => inf
  | fin q => fin (-q)

instance : Neg PyFloat := ⟨PyFloat.neg⟩

/-- IEEE addition: nan is absorbing, opposite infinities give nan. -/
def PyFloat.add : PyFloat → PyFloat → PyFloat
  | nan, _ => nan
  | _, nan => nan
  | inf, ninf => nan
  | inf, _ => inf
  | ninf, inf => nan
  | ninf, _ => ninf
  | fin _, inf => inf
  | fin _, ninf => ninf
  | fin a, fin b => fin (a + b)

instance : Add PyFloat := ⟨PyFloat.add⟩

instance : Sub PyFloat := ⟨fun a b => a + (-b)⟩

/-- IEEE multiplication: nan is absorbing, an infinity times zero is nan,
otherwise infinities follow the sign rule. -/
def PyFloat.mul : PyFloat → PyFloat → PyFloat
  | nan, _ => nan
  | _, nan => nan
  | inf, inf => inf
  | inf, ninf => ninf
  | ninf, inf => ninf
  | ninf, ninf => inf
  | inf, fin b => if b = 0 then nan else if 0 < b then inf else ninf
  | ninf, fin b => if b = 0 then nan else if 0 < b then ninf else inf
  | fin a, inf => if a = 0 then nan else if 0 < a then inf else ninf
  | fin a, ninf => if a = 0 then nan else if 0 < a then ninf else inf
  | fin a, fin b => fin (a * b)

instance : Mul PyFloat := ⟨PyFloat.mul⟩

/-- Python float division: nan is absorbing, `inf / inf` is nan, a finite
value divided by an infinity is zero, an infinity divided by a finite value
follows the sign rule.  (Python raises `ZeroDivisionError` on a zero
denominator; that case, unreachable in the claims' inputs, is mapped to nan.) -/
def PyFloat.div : PyFloat → PyFloat → PyFloat
  | nan, _ => nan
  | _, nan => nan
  | inf, inf => nan
  | inf, ninf => nan
  | ninf, inf => nan
  | ninf, ninf => nan
  | inf, fin b => if b = 0 then nan else if 0 < b then inf else ninf
  | ninf, fin b => if b = 0 then nan else if 0 < b then ninf else inf
  | fin _, inf => fin 0
  | fin _, ninf => fin 0
  | fin a, fin b => if b = 0 then nan else fin (a / b)

instance : Div PyFloat := ⟨PyFloat.div⟩

theorem PyFloat.add_comm_f (a b : PyFloat) : a + b = b + a := by
  cases a <;> cases b <;> simp [HAdd.hAdd, Add.add, PyFloat.add]
  exact Rat.add_comm _ _

/-- A float-coefficient symbolic vector (the same sparse-dict `Point` with
Python-float coefficients). -/
abbrev PointF : Type := ℕ → PyFloat

/-- Pointwise addition of float Points (merging sparse dicts: a key present in
one dict only keeps its value, since `v + 0 = v` for every float `v`). -/
instance : Add PointF := ⟨fun x y j => x j + y j⟩

instance : Sub PointF := ⟨fun x y j => x j - y j⟩

/-- Sparse-dict product: an absent key (coefficient zero) contributes nothing,
so `0 * inf` is never evaluated — exactly as Python's dict-based algebra never
multiplies values of keys that are not stored. -/
def sparseMul (a b : PyFloat) : PyFloat := if a = 0 ∨ b = 0 then 0 else a * b

/-- Sparse-dict scaling: only the stored (nonzero) coefficients are scaled. -/
def scaleF (c : PyFloat) (x : ℕ → PyFloat) : ℕ → PyFloat :=
  fun j => if x j = 0 then 0 else c * x j

instance : SMul PyFloat PointF := ⟨fun c x => scaleF c x⟩

def gramFunF (x y : PointF) (i j : ℕ) : PyFloat :=
  if i = j then sparseMul (x i) (y i) else sparseMul (x i) (y j) + sparseMul (x j) (y i)

theorem gramFunF_symm (x y : PointF) : ∀ i j, gramFunF x y i j = gramFunF x y j i := by
  intro i j
  unfold gramFunF
  rcases eq_or_ne i j with h | h
  · subst h; simp
  · simp only [if_neg h, if_neg (Ne.symm h)]
    exact PyFloat.add_comm_f _ _

def PointF.innerF (x y : PointF) : Sym2 ℕ → PyFloat :=
  Sym2.lift ⟨gramFunF x y, gramFunF_symm x y⟩

/-- A float-coefficient symbolic scalar. -/
structure ExpressionF where
  const : PyFloat
  lin : ℕ → PyFloat
  quad : Sym2 ℕ → PyFloat

instance : Add ExpressionF :=
  ⟨fun a b => ⟨a.const + b.const, fun i => a.lin i + b.lin i, fun z => a.quad z + b.quad z⟩⟩

instance : Sub ExpressionF :=
  ⟨fun a b => ⟨a.const - b.const, fun i => a.lin i - b.lin i, fun z => a.quad z - b.quad z⟩⟩

instance : SMul PyFloat ExpressionF :=
  ⟨fun c a => ⟨if a.const = 0 then 0 else c * a.const, scaleF c a.lin,
    fun z => if a.quad z = 0 then 0 else c * a.quad z⟩⟩

instance : HMul PointF PointF ExpressionF :=
  ⟨fun x y => ⟨0, fun _ => 0, PointF.innerF x y⟩⟩

/-- Python `x ** 2` on a float Point. -/
def PointF.squareF (x : PointF) : ExpressionF := ⟨0, fun _ => 0, PointF.innerF x x⟩

/-- A float-coefficient symbolic constraint. -/
structure ConstraintF where
  lhs : ExpressionF
  rhs : ExpressionF
  rel : ConstraintRel

def ExpressionF.geF (a b : ExpressionF) : ConstraintF := ⟨a, b, ConstraintRel.ineq⟩

/-- The state of a `SmoothFunction` object with its float parameter kept as a
float, plus the `warned` flag recording whether the construction-time
diagnostic was printed. -/
structure SmoothFunF where
  L : PyFloat
  warned : Bool
  is_leaf : Bool
  reuse_gradient : Bool
  list_of_points : List (PointF × PointF × ExpressionF)
  list_of_class_constraints : List ConstraintF

/-- `SmoothFunction.__init__` (src lines 30-64) with the parameter kept as a
Python float: `L` is stored unchanged, `reuse_gradient=True` is forwarded
regardless of the argument, and the cyan diagnostic about `L == np.inf`
implying no constraint is printed — recorded in `warned` — exactly when
`self.L == np.inf`. -/
def SmoothFunctionF.init (L : PyFloat) (is_leaf : Bool) (reuse_gradient : Bool) : SmoothFunF :=
  { L := L
    warned := decide (L = PyFloat.inf)
    is_leaf := is_leaf
    reuse_gradient := true
    list_of_points := []
    list_of_class_constraints := [] }

/-- `SmoothFunction.set_smoothness_i_j` (src lines 66-81) in float arithmetic:
the same formula, with no branch whatsoever on the value of `L`. -/
def SmoothFunF.set_smoothness_i_j (f : SmoothFunF) (xi gi : PointF) (fi : ExpressionF)
    (xj gj : PointF) (fj : ExpressionF) : ConstraintF :=
  ExpressionF.geF (fi - fj)
    ((-f.L / 4) • PointF.squareF (xi - xj)
      + (((1 : PyFloat) / 2) • (gi + gj)) * (xi - xj)
      + ((1 : PyFloat) / (4 * f.L)) • PointF.squareF (gi - gj))

/-- `SmoothFunction.add_class_constraints` (src lines 83-93) in float
arithmetic: one constraint per ordered pair of recorded interpolation points,
whatever `L` is — there is no degenerate-parameter check. -/
def SmoothFunF.add_class_constraints (f : SmoothFunF) : SmoothFunF × Option (List ConstraintF) :=
  ({ f with
      list_of_class_constraints := f.list_of_class_constraints ++
        add_constraints_from_two_lists_of_points f.list_of_points f.list_of_points
          f.set_smoothness_i_j },
    none)

/-- The vector-generator Point and scalar-generator Expression, float flavour. -/
def PointF.genF (i : ℕ) : PointF := fun j => if j = i then 1 else 0

def ExpressionF.scalGenF (i : ℕ) : ExpressionF :=
  ⟨0, fun j => if j = i then 1 else 0, fun _ => 0⟩

/-- A `SmoothFunction` declared with `L = np.inf` and queried once: the
warning was printed at construction, and one interpolation point is recorded. -/
def smoothInfExample : SmoothFunF :=
  { SmoothFunctionF.init PyFloat.inf true true with
      list_of_points := [(PointF.genF 0, PointF.genF 1, ExpressionF.scalGenF 0)] }

/-- C6 counterexample: for a `SmoothFunction` with `L = np.inf` holding one
recorded interpolation point, the diagnostic was printed, but constraint
generation does not reduce to the unconstrained case: `add_class_constraints`
still emits one (vacuous, infinite-coefficient) smoothness constraint instead
of zero. -/
theorem smooth_inf_still_emits_constraints :
    smoothInfExample.warned = true
    ∧ (smoothInfExample.add_class_constraints).1.list_of_class_constraints.length = 1
    ∧ (smoothInfExample.add_class_constraints).1.list_of_class_constraints ≠ [] := by
  refine ⟨rfl, rfl, ?_⟩
  intro h
  have h1 : (smoothInfExample.add_class_constraints).1.list_of_class_constraints.length = 1 := rfl
  rw [h] at h1
  simp at h1

/-- C6 amended: declaring a Smooth function with `L = np.inf` does print the
diagnostic warning at construction (and only then), but the constraint set is
not reduced to the unconstrained case: `add_class_constraints` has no check on
`L` and still emits one smoothness constraint per ordered pair of recorded
interpolation points — `k²` constraints for `k` points, for every value of
`L`, `np.inf` included. -/
theorem smooth_inf_warns_but_still_emits_pairwise (L : PyFloat)
    (is_leaf reuse_gradient : Bool) (f : SmoothFunF) :
    (SmoothFunctionF.init L is_leaf reuse_gradient).warned = decide (L = PyFloat.inf)
    ∧ (SmoothFunctionF.init L is_leaf reuse_gradient).L = L
    ∧ (f.add_class_constraints).1.list_of_class_constraints.length =
        f.list_of_class_constraints.length + f.list_of_points.length ^ 2
    ∧ (f.add_class_constraints).2 = none := by
  refine ⟨rfl, rfl, ?_, rfl⟩
  simp only [SmoothFunF.add_class_constraints, List.length_append,
    add_constraints_from_two_lists_length]
  ring

end PEPit
